import Mathlib

/-!
Shallow embedding of the MI777 cloud-storage system.

Paths are modeled as lists of path segments (the source joins segments
with forward slashes); timestamps and modification times are integers
(the source uses `time.time()` floats, and only ordering and differences
of times matter to the properties below); file contents are opaque
naturals (only presence and overwriting matter).

The embedded pieces are:
* the watcher's aggregation map and the processing loop's drain
  (`FileChangeHandler._watch_loop` / `_process_loop` in client.py);
* the dispatch of one drained event (`_handle_event`, `_handle_child`,
  `_create_folder`, `_upload_file`, `_delete_path` in client.py),
  modeled as the list of HTTP requests the handler issues;
* the server endpoints (`upload_file`, `delete_file` in server.py,
  identical in server_with_ngrok.py) as state transformers on a finite
  storage map;
* the reconciliation pass (`CloudStorageClient.force_sync` in client.py)
  as the decision functions for which directories are created and which
  files are uploaded, plus the server-side effect of the issued requests;
* a step relation for the interleaving of event arrivals, drains and
  dispatch completions in `_process_loop`.
-/

namespace MI777

/-- Raw filesystem change kinds delivered by the watcher (watchfiles.Change). -/
inductive Change
  | added
  | modified
  | deleted
deriving DecidableEq

instance : Inhabited Change := ⟨Change.added⟩

/-- The kind of remote operation a drained change is dispatched as. -/
inductive PKind
  | upsert
  | del
deriving DecidableEq

/-- Dispatch kind of a raw change, following the branch structure of
`FileChangeHandler._handle_event`: `added` and `modified` both lead to the
upsert branch, `deleted` to `_delete_path`. -/
def kindOf : Change → PKind
  | Change.added => PKind.upsert
  | Change.modified => PKind.upsert
  | Change.deleted => PKind.del

/-- The watcher's aggregation map `self._events`: path to
(latest change, last-seen timestamp), in dict insertion order. -/
abbrev EventMap := List (List String × Change × Int)

/-- The dict update `self._events[p] = (change, ts)` performed by
`_watch_loop` for each raw event: latest-wins per path, position kept for
an existing key, new keys appended. -/
def recordEv : EventMap → List String → Change → Int → EventMap
  | [], p, c, t => [(p, c, t)]
  | (q, x) :: rest, p, c, t =>
    if q = p then (p, c, t) :: rest else (q, x) :: recordEv rest p c t

/-- Recording a whole sequence of raw events for one path `p`, starting
from an empty aggregation map. -/
def recordAll (p : List String) (evs : List (Change × Int)) : EventMap :=
  evs.foldl (fun m ct => recordEv m p ct.1 ct.2) []

/-- One drain pass of `_process_loop`: every entry whose last-seen time is
at least the debounce window old (now - ts >= debounce) is moved to the
ready list and deleted from the map; fresher entries stay. -/
def drainStep (now d : Int) : EventMap → List (List String × Change) × EventMap
  | [] => ([], [])
  | (p, c, t) :: rest =>
    let r := drainStep now d rest
    if now - t ≥ d then ((p, c) :: r.1, r.2) else (r.1, (p, c, t) :: r.2)

/-- A remote storage entry: a directory or a file with (opaque) content. -/
inductive Entry
  | dir
  | file (content : Nat)
deriving DecidableEq

/-- The server's storage state: a finite map from relative path to entry,
first binding wins on lookup. -/
abbrev FS := List (List String × Entry)

/-- Path lookup in the storage map. -/
def lookupE : FS → List String → Option Entry
  | [], _ => none
  | (q, e) :: rest, p => if q = p then some e else lookupE rest p

/-- Overwriting insertion: an existing binding for the path is replaced in
place, otherwise the binding is appended. -/
def insertE : FS → List String → Entry → FS
  | [], p, e => [(p, e)]
  | (q, d) :: rest, p, e =>
    if q = p then (p, e) :: rest else (q, d) :: insertE rest p e

/-- The nonempty cumulative segment paths of `l` continuing from `acc`:
`cumPathsAux [] [a, b] = [[a], [a, b]]`. -/
def cumPathsAux (acc : List String) : List String → List (List String)
  | [] => []
  | s :: rest => (acc ++ [s]) :: cumPathsAux (acc ++ [s]) rest

/-- All nonempty cumulative paths of `p` from the root downward. -/
def cumPaths (p : List String) : List (List String) := cumPathsAux [] p

/-- The proper ancestor chain of `p` from the root downward (the paths
that `parent.mkdir(parents=True, exist_ok=True)` walks). -/
def ancestors (p : List String) : List (List String) := cumPathsAux [] p.dropLast

/-- Effect of `Path.mkdir(parents=True, exist_ok=True)` along a chain of
paths from the root downward: an existing directory is kept, a missing one
is created, a file in the way raises (chain stops, flag false). -/
def mkdirChain : FS → List (List String) → FS × Bool
  | fs, [] => (fs, true)
  | fs, q :: rest =>
    match lookupE fs q with
    | some Entry.dir => mkdirChain fs rest
    | some (Entry.file _) => (fs, false)
    | none => mkdirChain (insertE fs q Entry.dir) rest

/-- HTTP response outcome of a server endpoint (success bodies elided). -/
inductive Resp
  | ok
  | err (code : Nat)
deriving DecidableEq

/-- The kind of exception raised inside the server's try block: an
explicit HTTPException with a status code (the 400 "No file provided for
file upload" rejection), or an OS-level error from a filesystem call. -/
inductive ExcKind
  | http (code : Nat)
  | os
deriving DecidableEq

/-- Body of the server's `upload_file` handler inside its try block
(server.py, identical in server_with_ngrok.py): ensure the parent chain,
then either create the directory, reject a missing file payload with an
internal 400, or write the file. An error carries the storage state at
raise time, since mkdir side effects are not rolled back. -/
def upload_inner (fs : FS) (p : List String) (file : Option Nat)
    (is_directory : Bool) : Except (ExcKind × FS) FS :=
  match mkdirChain fs (ancestors p) with
  | (fs1, false) => Except.error (ExcKind.os, fs1)
  | (fs1, true) =>
    if is_directory then
      match lookupE fs1 p with
      | some Entry.dir => Except.ok fs1
      | some (Entry.file _) => Except.error (ExcKind.os, fs1)
      | none => Except.ok (insertE fs1 p Entry.dir)
    else
      match file with
      | none => Except.error (ExcKind.http 400, fs1)
      | some content =>
        match lookupE fs1 p with
        | some Entry.dir => Except.error (ExcKind.os, fs1)
        | _ => Except.ok (insertE fs1 p (Entry.file content))

/-- The `upload_file` endpoint after its blanket `except Exception`
handler: every internal exception, the HTTPException(400) included, is
re-raised as HTTP 500. -/
def upload_file (fs : FS) (p : List String) (file : Option Nat)
    (is_directory : Bool) : Resp × FS :=
  match upload_inner fs p file is_directory with
  | Except.ok fs1 => (Resp.ok, fs1)
  | Except.error (_, fs1) => (Resp.err 500, fs1)

/-- `shutil.rmtree`: remove the directory path and everything below it. -/
def removeTree (fs : FS) (p : List String) : FS :=
  fs.filter (fun e => !(p.isPrefixOf e.1))

/-- Removal of a single file binding (`Path.unlink`). -/
def eraseKey : FS → List String → FS
  | [], _ => []
  | (q, d) :: rest, p => if q = p then rest else (q, d) :: eraseKey rest p

/-- The server's `delete_file` endpoint: 404 when the path does not
exist, otherwise unlink a file or rmtree a directory. -/
def delete_file (fs : FS) (p : List String) : Resp × FS :=
  match lookupE fs p with
  | none => (Resp.err 404, fs)
  | some (Entry.file _) => (Resp.ok, eraseKey fs p)
  | some Entry.dir => (Resp.ok, removeTree fs p)

/-- `FileChangeHandler._create_folder` (client.py): walk the relative
path's segments from the root downward, posting one create-directory
request per cumulative path; on the first non-200 response the loop
reports failure and returns. `resp` tells whether the server answered a
given path with status 200. Returns the calls made in order and whether
the walk completed without a failure. -/
def create_folder_run (resp : List String → Bool) (cur : List String) :
    List String → List (List String) × Bool
  | [] => ([], true)
  | part :: rest =>
    let cur2 := cur ++ [part]
    if resp cur2 then
      let r := create_folder_run resp cur2 rest
      (cur2 :: r.1, r.2)
    else ([cur2], false)

/-- The ordered list of create-directory calls `_create_folder` issues
for a relative path given as its segment list. -/
def create_folder (resp : List String → Bool) (parts : List String) :
    List (List String) :=
  (create_folder_run resp [] parts).1

/-- Outcome of one attempt of `_upload_file`'s retry loop: a 200
response, a non-200 response with its status code, a transient
PermissionError/FileNotFoundError, or any other exception. -/
inductive Att
  | ok
  | rejected (code : Nat)
  | transientExc
  | otherExc
deriving DecidableEq

/-- The retry loop of `_upload_file` (client.py; `_process_change` in
client_new.py is identical): attempt `i` has outcome `att i`; a 200
returns, a non-200 response falls through to the next attempt, a
transient exception sleeps and continues, any other exception breaks.
Returns the trace of attempts made with the given fuel. -/
def uploadGo (att : Nat → Att) : Nat → Nat → List Att
  | _, 0 => []
  | i, fuel + 1 =>
    match att i with
    | Att.ok => [Att.ok]
    | Att.rejected c => Att.rejected c :: uploadGo att (i + 1) fuel
    | Att.transientExc => Att.transientExc :: uploadGo att (i + 1) fuel
    | Att.otherExc => [Att.otherExc]

/-- The attempts `_upload_file` makes: `for attempt in range(3)`. -/
def upload_attempts (att : Nat → Att) : List Att := uploadGo att 0 3

/-- An HTTP request the client issues, by endpoint and relative path. -/
inductive Req
  | mkdirReq (p : List String)
  | uploadReq (p : List String)
  | deleteReq (p : List String)
deriving DecidableEq

/-- The relative path a request targets. -/
def reqPath : Req → List String
  | Req.mkdirReq p => p
  | Req.uploadReq p => p
  | Req.deleteReq p => p

/-- `_delete_path`: a single DELETE request, issued unconditionally and
exactly once; there is no retry and no error branch on the status code. -/
def delete_path_reqs (rel : List String) : List Req := [Req.deleteReq rel]

/-- `_delete_path` logs "Deleted" exactly when the response status is
200; any other status is silently ignored. -/
def delete_path_logs (status : Nat) : Bool := status == 200

/-- `Path.relative_to`: the relative path when `sync` leads `p`, and
`none` (a raised ValueError) otherwise. -/
def relOf (sync p : List String) : Option (List String) :=
  if sync.isPrefixOf p then some (p.drop sync.length) else none

/-- The local filesystem as seen by `_handle_event`: absolute path
(as segments) to an is-directory flag. -/
abbrev LFS := List (List String × Bool)

/-- Lookup of a local path. -/
def lfsLookup : LFS → List String → Option Bool
  | [], _ => none
  | (q, b) :: rest, p => if q = p then some b else lfsLookup rest p

/-- `p.rglob("*")`: every local path strictly below `p`. -/
def descendantsOf (L : LFS) (p : List String) : List (List String) :=
  (L.filter (fun e => p.isPrefixOf e.1 && !(decide (e.1 = p)))).map (fun e => e.1)

/-- The upload request `_upload_file` issues for an absolute path (none
when `relative_to` fails inside its try block). Retries repeat the same
request and are accounted separately by `upload_attempts`. -/
def upload_file_reqs (sync p : List String) : List Req :=
  match relOf sync p with
  | none => []
  | some rel => [Req.uploadReq rel]

/-- The create-directory requests `_create_folder` issues for an absolute
path. -/
def create_folder_reqs (resp : List String → Bool) (sync p : List String) :
    List Req :=
  match relOf sync p with
  | none => []
  | some rel => (create_folder resp rel).map Req.mkdirReq

/-- `_handle_child`: upload a child file, create a child directory. -/
def handle_child_reqs (resp : List String → Bool) (sync : List String)
    (L : LFS) (child : List String) : List Req :=
  match lfsLookup L child with
  | some false => upload_file_reqs sync child
  | some true => create_folder_reqs resp sync child
  | none => []

/-- The requests the dispatch thread for one drained event issues
(`_handle_event`): nothing when the path is outside the sync folder;
a delete for a deletion; for added/modified, nothing when the path no
longer exists, an upload for a file, and for a directory the folder
creation followed by the fan-out over every descendant. The fan-out
children run as parallel threads in the source; this list is their
requests in enumeration order. -/
def handle_event_reqs (resp : List String → Bool) (sync : List String)
    (L : LFS) (c : Change) (p : List String) : List Req :=
  match relOf sync p with
  | none => []
  | some rel =>
    match c with
    | Change.deleted => [Req.deleteReq rel]
    | _ =>
      match lfsLookup L p with
      | none => []
      | some true =>
        create_folder_reqs resp sync p ++
          (descendantsOf L p).flatMap (handle_child_reqs resp sync L)
      | some false => upload_file_reqs sync p

/-- A remote inventory item as returned by the server's `/files` list. -/
structure SItem where
  isDirectory : Bool
  modified : Int
deriving DecidableEq

/-- A local inventory item built by `force_sync`'s walk. -/
structure LItem where
  isDirectory : Bool
  modified : Int
deriving DecidableEq

/-- The remote inventory keyed by relative path (`server_files`). -/
abbrev SMap := List (List String × SItem)

/-- The local inventory keyed by relative path (`local_files`). -/
abbrev LMap := List (List String × LItem)

/-- Lookup in the remote inventory (`server_files.get(rel_path)`). -/
def lookupS : SMap → List String → Option SItem
  | [], _ => none
  | (q, v) :: rest, p => if q = p then some v else lookupS rest p

/-- The paths `force_sync` uploads: local non-directories whose remote
counterpart is absent, or remotely strictly older than the local
modification time (`not server_info or server_info.get('modified', 0) <
info['modified']`). -/
def force_sync_uploads (sm : SMap) (lm : LMap) : List (List String) :=
  (lm.filter (fun l =>
    !l.2.isDirectory &&
      (match lookupS sm l.1 with
       | none => true
       | some si => decide (si.modified < l.2.modified)))).map (fun l => l.1)

/-- The paths `force_sync` creates as directories: local directories not
present in the remote inventory. -/
def force_sync_dirs (sm : SMap) (lm : LMap) : List (List String) :=
  (lm.filter (fun l => l.2.isDirectory && (lookupS sm l.1).isNone)).map
    (fun l => l.1)

/-- A server-side operation issued during reconciliation: `force_sync`
only ever posts to the upload endpoint, either as a directory creation or
as a file upload. -/
inductive Op
  | mkdirOp (p : List String)
  | uploadOp (p : List String) (content : Nat)
deriving DecidableEq

/-- Server-state effect of one reconciliation request. -/
def applyOp (fs : FS) : Op → FS
  | Op.mkdirOp p => (upload_file fs p none true).2
  | Op.uploadOp p c => (upload_file fs p (some c) false).2

/-- Server-state effect of a request sequence. -/
def runOps (fs : FS) (ops : List Op) : FS := ops.foldl applyOp fs

/-- The requests one `force_sync` pass issues against the server: the
per-segment directory creations (via `_create_folder`, with the server's
responses given by `resp`) followed by the file uploads. -/
def reconcileOps (resp : List String → Bool) (sm : SMap) (lm : LMap)
    (contentOf : List String → Nat) : List Op :=
  (force_sync_dirs sm lm).flatMap (fun d => (create_folder resp d).map Op.mkdirOp)
    ++ (force_sync_uploads sm lm).map (fun p => Op.uploadOp p (contentOf p))

/-- Joint state of the aggregation map and the set of drained paths whose
dispatch threads are currently running. -/
structure AggState where
  events : EventMap
  flight : List (List String)
deriving DecidableEq

/-- Interleaving semantics of `_watch_loop` and `_process_loop`:
a raw event updates the map at any time; a drain can happen only when
every dispatch thread of the previous tick has been joined (the loop
joins all threads before sleeping and draining again), moves the ready
entries out of the map and starts one dispatch thread per drained path;
a dispatch thread finishes at any time. -/
inductive AggStep : AggState → AggState → Prop
  | record (s : AggState) (p : List String) (c : Change) (t : Int) :
      AggStep s ⟨recordEv s.events p c t, s.flight⟩
  | drain (s : AggState) (now d : Int) (h : s.flight = []) :
      AggStep s
        ⟨(drainStep now d s.events).2,
         ((drainStep now d s.events).1).map (fun e => e.1)⟩
  | finish (s : AggState) (p : List String) (h : p ∈ s.flight) :
      AggStep s ⟨s.events, s.flight.erase p⟩

/-- States reachable from the initial empty state. -/
def AggReach (s : AggState) : Prop :=
  Relation.ReflTransGen AggStep ⟨[], []⟩ s

/-- A storage state is well formed when every proper ancestor of a
present path is itself present as a directory (true of every state a real
filesystem tree can be in). -/
def wellFormedFS (fs : FS) : Prop :=
  ∀ x ∈ fs, ∀ a ∈ ancestors x.1, lookupE fs a = some Entry.dir

/-! Helper lemmas about the aggregation map. -/

theorem recordAll_from_single (p : List String) :
    ∀ (evs : List (Change × Int)) (c : Change) (t : Int),
      evs.foldl (fun m ct => recordEv m p ct.1 ct.2) [(p, c, t)]
        = [(p, (evs.getLastD (c, t)).1, (evs.getLastD (c, t)).2)] := by
  intro evs
  induction evs with
  | nil => intro c t; simp [List.getLastD]
  | cons e rest ih =>
    intro c t
    simp only [List.foldl_cons, List.getLastD_cons]
    rw [show recordEv [(p, c, t)] p e.1 e.2 = [(p, e.1, e.2)] by simp [recordEv]]
    exact ih e.1 e.2

theorem recordAll_eq (p : List String) (evs : List (Change × Int)) (hne : evs ≠ []) :
    recordAll p evs
      = [(p, (evs.getLastD (Change.added, 0)).1,
            (evs.getLastD (Change.added, 0)).2)] := by
  match evs, hne with
  | e :: rest, _ =>
    unfold recordAll
    simp only [List.foldl_cons, List.getLastD_cons]
    rw [show recordEv [] p e.1 e.2 = [(p, e.1, e.2)] from rfl]
    exact recordAll_from_single p rest e.1 e.2

theorem drainStep_eq_filter (now d : Int) (ev : EventMap) :
    (drainStep now d ev).1
        = (ev.filter (fun e => decide (now - e.2.2 ≥ d))).map (fun e => (e.1, e.2.1))
      ∧ (drainStep now d ev).2 = ev.filter (fun e => !decide (now - e.2.2 ≥ d)) := by
  induction ev with
  | nil => simp [drainStep]
  | cons e rest ih =>
    obtain ⟨p, c, t⟩ := e
    by_cases h : now - t ≥ d
    · constructor
      · simp [drainStep, h, ih.1]
      · simp [drainStep, h, ih.2]
    · constructor
      · simp [drainStep, h, ih.1]
      · simp [drainStep, h, ih.2]

/-- C1: for every sequence of raw events for a single path all arriving
within less than the debounce window, a drain once the window has elapsed
since the last event emits exactly one pending action for that path whose
change is the last event's change — dispatched as Delete exactly when the
last event was a deletion and as Upsert otherwise — and in general the
drain removes exactly the entries whose last-seen time is at least the
debounce window old, leaving fresher entries in the map. -/
theorem c1_debounce_drain (p : List String) (evs : List (Change × Int)) (now d : Int)
    (hne : evs ≠ [])
    (_hwin : ∀ e ∈ evs, (evs.getLastD (Change.added, 0)).2 - e.2 < d)
    (hdrain : now - (evs.getLastD (Change.added, 0)).2 ≥ d) :
    drainStep now d (recordAll p evs)
        = ([(p, (evs.getLastD (Change.added, 0)).1)], [])
      ∧ kindOf (evs.getLastD (Change.added, 0)).1
          = (if (evs.getLastD (Change.added, 0)).1 = Change.deleted then PKind.del
             else PKind.upsert)
      ∧ ∀ m : EventMap,
          (drainStep now d m).1
              = (m.filter (fun e => decide (now - e.2.2 ≥ d))).map
                  (fun e => (e.1, e.2.1))
            ∧ (drainStep now d m).2
                = m.filter (fun e => !decide (now - e.2.2 ≥ d)) := by
  refine ⟨?_, ?_, fun m => drainStep_eq_filter now d m⟩
  · rw [recordAll_eq p evs hne]
    rcases hl : evs.getLastD (Change.added, 0) with ⟨c, t⟩
    rw [hl] at hdrain
    simp [drainStep, hdrain]
  · cases h : (evs.getLastD (Change.added, 0)).1 <;> simp [kindOf, h]

/-- Witness for C1: a modify followed by a delete of the same path within
the window yields exactly one pending delete once the window elapses. -/
theorem c1_debounce_drain_witness :
    drainStep 10 3 (recordAll [ "n" ] [(Change.modified, 5), (Change.deleted, 7)])
      = ([([ "n" ], Change.deleted)], []) :=
  (c1_debounce_drain [ "n" ] [(Change.modified, 5), (Change.deleted, 7)] 10 3
    (by decide) (by decide) (by decide)).1

/-! Helper lemmas about cumulative paths and `_create_folder`. -/

theorem mem_cumPathsAux_le (acc : List String) (l : List String) :
    ∀ x ∈ cumPathsAux acc l, x.length ≤ acc.length + l.length := by
  induction l generalizing acc with
  | nil => simp [cumPathsAux]
  | cons s rest ih =>
    intro x hx
    simp only [cumPathsAux, List.mem_cons] at hx
    rcases hx with h | h
    · subst h
      simp only [List.length_append, List.length_cons, List.length_nil]
      omega
    · have h2 := ih (acc ++ [s]) x h
      have h3 : (acc ++ [s]).length = acc.length + 1 := by simp
      simp only [List.length_cons]
      omega

theorem cumPathsAux_mem_pfx (acc : List String) (l : List String) :
    ∀ x ∈ cumPathsAux acc l, acc <+: x := by
  induction l generalizing acc with
  | nil => simp [cumPathsAux]
  | cons s rest ih =>
    intro x hx
    simp only [cumPathsAux, List.mem_cons] at hx
    rcases hx with h | h
    · subst h; exact ⟨[s], rfl⟩
    · obtain ⟨t2, ht⟩ := ih (acc ++ [s]) x h
      exact ⟨[s] ++ t2, by rw [← List.append_assoc]; exact ht⟩

theorem cumPathsAux_chain (l : List String) :
    ∀ acc : List String, List.Pairwise (fun a b => a <+: b) (cumPathsAux acc l) := by
  induction l with
  | nil => intro acc; simp [cumPathsAux]
  | cons s rest ih =>
    intro acc
    simp only [cumPathsAux]
    exact List.Pairwise.cons
      (fun x hx => cumPathsAux_mem_pfx (acc ++ [s]) rest x hx) (ih (acc ++ [s]))

theorem create_folder_run_eq (resp : List String → Bool) :
    ∀ (l : List String) (acc : List String),
      (create_folder_run resp acc l).1
          = (cumPathsAux acc l).takeWhile resp
            ++ ((cumPathsAux acc l).dropWhile resp).take 1
        ∧ ((create_folder_run resp acc l).2 = true
            ↔ ∀ a ∈ cumPathsAux acc l, resp a = true) := by
  intro l
  induction l with
  | nil => intro acc; simp [create_folder_run, cumPathsAux]
  | cons s rest ih =>
    intro acc
    by_cases h : resp (acc ++ [s])
    · constructor
      · simp [create_folder_run, cumPathsAux, h, List.takeWhile_cons,
              List.dropWhile_cons, (ih (acc ++ [s])).1]
      · simp only [create_folder_run, cumPathsAux, h, if_true]
        rw [(ih (acc ++ [s])).2]
        simp [h]
    · constructor
      · simp [create_folder_run, cumPathsAux, h, List.takeWhile_cons,
              List.dropWhile_cons]
      · simp only [create_folder_run, cumPathsAux, h, if_false]
        simp only [List.mem_cons, forall_eq_or_imp]
        simp [h]

theorem takeWhile_append_take_one_sublist
    (q : List String → Bool) (l : List (List String)) :
    List.Sublist (l.takeWhile q ++ (l.dropWhile q).take 1) l := by
  have h1 : List.Sublist (l.takeWhile q ++ (l.dropWhile q).take 1)
      (l.takeWhile q ++ l.dropWhile q) :=
    List.Sublist.append (List.Sublist.refl _) (List.take_sublist _ _)
  have h2 : List.Sublist (l.takeWhile q ++ l.dropWhile q) l := by
    rw [List.takeWhile_append_dropWhile]
  exact List.Sublist.trans h1 h2

/-- C6: for an upsert of a directory path, `_create_folder` issues one
create-directory call per path segment from the root downward — the calls
made are exactly the cumulative paths up to and including the first one
the server rejects, each call's path extending the previous one
(ancestor before descendant) — and it completes without reporting failure
exactly when every segment's call succeeded. -/
theorem c6_create_folder_fail_fast (resp : List String → Bool) (parts : List String) :
    create_folder resp parts
        = (cumPaths parts).takeWhile resp
          ++ ((cumPaths parts).dropWhile resp).take 1
      ∧ List.Pairwise (fun a b => a <+: b) (create_folder resp parts)
      ∧ ((create_folder_run resp [] parts).2 = true
          ↔ ∀ a ∈ cumPaths parts, resp a = true) := by
  have h := create_folder_run_eq resp parts []
  refine ⟨h.1, ?_, h.2⟩
  have hsub : List.Sublist (create_folder resp parts) (cumPaths parts) := by
    rw [show create_folder resp parts = _ from h.1]
    exact takeWhile_append_take_one_sublist resp (cumPaths parts)
  exact List.Pairwise.sublist hsub (cumPathsAux_chain parts [])

/-- Witness for C6: with every create succeeding, the calls for a
two-segment directory are its two cumulative paths in root-down order. -/
theorem c6_create_folder_fail_fast_witness :
    create_folder (fun _ => true) [ "a", "b" ] = [[ "a" ], [ "a", "b" ]] := by
  have h := c6_create_folder_fail_fast (fun _ => true) [ "a", "b" ]
  rw [h.1]
  decide

/-! Helper lemmas for the dispatch-interleaving invariant. -/

theorem recordEv_keys (m : EventMap) (p : List String) (c : Change) (t : Int) :
    (recordEv m p c t).map (fun e => e.1)
      = if p ∈ m.map (fun e => e.1)
        then m.map (fun e => e.1)
        else m.map (fun e => e.1) ++ [p] := by
  induction m with
  | nil => simp [recordEv]
  | cons e rest ih =>
    obtain ⟨q, y⟩ := e
    by_cases h : q = p
    · subst h
      simp [recordEv]
    · simp only [recordEv, if_neg h, List.map_cons, ih]
      by_cases hp : p ∈ rest.map (fun e => e.1)
      · simp [hp, h, Ne.symm h]
      · simp [hp, h, Ne.symm h]

theorem recordEv_keys_nodup (m : EventMap) (p : List String) (c : Change) (t : Int)
    (h : (m.map (fun e => e.1)).Nodup) :
    ((recordEv m p c t).map (fun e => e.1)).Nodup := by
  rw [recordEv_keys]
  by_cases hp : p ∈ m.map (fun e => e.1)
  · simpa [hp] using h
  · simp only [hp, if_false]
    rw [List.nodup_append]
    exact ⟨h, List.nodup_singleton p, by simpa using hp⟩

theorem drainStep_snd_sublist (now d : Int) (ev : EventMap) :
    List.Sublist (drainStep now d ev).2 ev := by
  rw [(drainStep_eq_filter now d ev).2]
  exact List.filter_sublist ev

theorem drainStep_fst_keys (now d : Int) (ev : EventMap) :
    ((drainStep now d ev).1).map (fun e => e.1)
      = (ev.filter (fun e => decide (now - e.2.2 ≥ d))).map (fun e => e.1) := by
  rw [(drainStep_eq_filter now d ev).1, List.map_map]
  rfl

/-- C2 amended: under every interleaving of event arrivals,
processing-loop drains and dispatch completions, the set of drained paths
whose top-level dispatch threads are running is always duplicate-free —
the aggregation map is path-keyed and `_process_loop` joins every thread
of a tick before draining again, so no two top-level dispatch threads for
the same drained path ever run concurrently. (Per-path exclusion does not
extend to a directory dispatch's recursive child fan-out; see the
counterexample.) -/
theorem c2_top_level_flight_nodup (s : AggState) (h : AggReach s) :
    s.flight.Nodup ∧ (s.events.map (fun e => e.1)).Nodup := by
  induction h with
  | refl => exact ⟨List.nodup_nil, List.nodup_nil⟩
  | tail hs hstep ih =>
    cases hstep with
    | record p c t => exact ⟨ih.1, recordEv_keys_nodup _ p c t ih.2⟩
    | drain now d hfl =>
      refine ⟨?_, ?_⟩
      · show (((drainStep now d _).1).map (fun e => e.1)).Nodup
        rw [drainStep_fst_keys]
        exact List.Nodup.sublist (List.Sublist.map _ (List.filter_sublist _)) ih.2
      · show (((drainStep now d _).2).map (fun e => e.1)).Nodup
        exact List.Nodup.sublist
          (List.Sublist.map _ (drainStep_snd_sublist now d _)) ih.2
    | finish p hp => exact ⟨List.Nodup.erase p ih.1, ih.2⟩

/-- Witness for the amended C2 at a concrete reachable state with one
dispatch thread in flight. -/
theorem c2_top_level_flight_nodup_witness :
    ([[ "a" ]] : List (List String)).Nodup := by
  have hr : AggReach ⟨[], [[ "a" ]]⟩ := by
    have h1 : AggStep ⟨[], []⟩ ⟨[([ "a" ], Change.added, 0)], []⟩ :=
      AggStep.record ⟨[], []⟩ [ "a" ] Change.added 0
    have h2 : AggStep ⟨[([ "a" ], Change.added, 0)], []⟩ ⟨[], [[ "a" ]]⟩ :=
      AggStep.drain ⟨[([ "a" ], Change.added, 0)], []⟩ 10 1 rfl
    exact Relation.ReflTransGen.tail (Relation.ReflTransGen.tail
      Relation.ReflTransGen.refl h1) h2
  exact (c2_top_level_flight_nodup _ hr).1

/-- C2 counterexample: per-path mutual exclusion fails for the fan-out.
With a directory `d` containing file `d/f`, one tick can drain pending
events for both `d` and `d/f`; `_process_loop` then starts both dispatch
threads together and joins them together, so they run concurrently — and
the thread dispatching `d` also uploads the child path `d/f` (its rglob
fan-out), while the thread dispatching `d/f` uploads `d/f` itself: the
path `d/f` is dispatched a second time while a dispatch for it is still
in flight. -/
theorem c2_per_path_exclusion_cex :
    ((drainStep 10 1 [([ "d" ], Change.added, 0),
        ([ "d", "f" ], Change.added, 0)]).1).map (fun e => e.1)
        = [[ "d" ], [ "d", "f" ]]
      ∧ [ "d", "f" ] ∈ (handle_event_reqs (fun _ => true) []
            [([ "d" ], true), ([ "d", "f" ], false)] Change.added [ "d" ]).map reqPath
      ∧ [ "d", "f" ] ∈ (handle_event_reqs (fun _ => true) []
            [([ "d" ], true), ([ "d", "f" ], false)] Change.added
            [ "d", "f" ]).map reqPath := by
  decide

/-- C3 counterexample: deleting an already-absent remote path does not
return success — the server's `delete_file` answers 404. -/
theorem c3_delete_absent_cex :
    (delete_file [] [ "a.txt" ]).1 = Resp.err 404
      ∧ (delete_file [] [ "a.txt" ]).1 ≠ Resp.ok := by
  decide

/-- C3 amended: deleting an already-absent remote path returns a 404
not-found error, not success, and leaves the store unchanged; the client
(`_delete_path`) issues exactly one delete request, does not retry, and
silently ignores the non-200 response (it logs a deletion only on 200,
and raises nothing). -/
theorem c3_delete_absent_amended (fs : FS) (p : List String)
    (h : lookupE fs p = none) :
    delete_file fs p = (Resp.err 404, fs)
      ∧ delete_path_reqs p = [Req.deleteReq p]
      ∧ delete_path_logs 404 = false := by
  refine ⟨?_, rfl, rfl⟩
  unfold delete_file
  rw [h]

/-- Witness for the amended C3 on an empty remote store. -/
theorem c3_delete_absent_amended_witness :
    delete_file [] [ "x" ] = (Resp.err 404, []) :=
  (c3_delete_absent_amended [] [ "x" ] rfl).1

/-! Helper lemma for the reconciliation upload decision. -/

theorem force_sync_cond (sm : SMap) (l : List String × LItem) :
    ((!l.2.isDirectory &&
      (match lookupS sm l.1 with
       | none => true
       | some si => decide (si.modified < l.2.modified))) = true)
    ↔ (l.2.isDirectory = false ∧
        (lookupS sm l.1 = none
         ∨ ∃ si : SItem, lookupS sm l.1 = some si
             ∧ si.modified < l.2.modified)) := by
  cases hS : lookupS sm l.1 <;> simp [hS]

/-- C4: reconciliation (`force_sync`) uploads a local file exactly when
its remote counterpart is absent or the remote modification time is
strictly older than the local one; a remote entry with a newer-or-equal
modification time is left untouched. -/
theorem c4_reconcile_upload_iff (sm : SMap) (lm : LMap) (p : List String) :
    p ∈ force_sync_uploads sm lm
      ↔ ∃ li : LItem, (p, li) ∈ lm ∧ li.isDirectory = false
          ∧ (lookupS sm p = none
             ∨ ∃ si : SItem, lookupS sm p = some si ∧ si.modified < li.modified) := by
  unfold force_sync_uploads
  rw [List.mem_map]
  constructor
  · rintro ⟨l, hl, hp⟩
    rw [List.mem_filter] at hl
    have h2 := (force_sync_cond sm l).mp hl.2
    subst hp
    exact ⟨l.2, by simpa using hl.1, h2.1, h2.2⟩
  · rintro ⟨li, hmem, hdir, hcond⟩
    refine ⟨(p, li), ?_, rfl⟩
    rw [List.mem_filter]
    exact ⟨hmem, (force_sync_cond sm (p, li)).mpr ⟨hdir, hcond⟩⟩

/-! Helper lemmas about the storage map: lookups after insertion, and
monotonicity of the operations reconciliation issues. -/

theorem lookupE_insertE_self (fs : FS) (p : List String) (e : Entry) :
    lookupE (insertE fs p e) p = some e := by
  induction fs with
  | nil => simp [insertE, lookupE]
  | cons x rest ih =>
    obtain ⟨q, y⟩ := x
    by_cases h : q = p
    · simp [insertE, h, lookupE]
    · simp [insertE, h, lookupE, ih]

theorem lookupE_insertE_ne (fs : FS) (p q : List String) (e : Entry) (h : q ≠ p) :
    lookupE (insertE fs p e) q = lookupE fs q := by
  induction fs with
  | nil => simp [insertE, lookupE, Ne.symm h]
  | cons x rest ih =>
    obtain ⟨r, y⟩ := x
    by_cases hr : r = p
    · subst hr
      simp [insertE, lookupE, Ne.symm h]
    · by_cases hq : r = q
      · subst hq
        simp [insertE, hr, lookupE, Ne.symm h]
      · simp [insertE, hr, lookupE, hq, ih]

theorem lookupE_insertE_isSome (fs : FS) (p : List String) (e : Entry)
    (q : List String) (h : (lookupE fs q).isSome = true) :
    (lookupE (insertE fs p e) q).isSome = true := by
  by_cases hq : q = p
  · subst hq
    rw [lookupE_insertE_self]
    rfl
  · rw [lookupE_insertE_ne fs p q e hq]
    exact h

theorem mkdirChain_isSome (l : List (List String)) :
    ∀ (fs : FS) (q : List String), (lookupE fs q).isSome = true →
      (lookupE (mkdirChain fs l).1 q).isSome = true := by
  induction l with
  | nil => intro fs q h; simpa [mkdirChain] using h
  | cons a rest ih =>
    intro fs q h
    unfold mkdirChain
    cases hl : lookupE fs a with
    | none => exact ih _ q (lookupE_insertE_isSome fs a Entry.dir q h)
    | some e =>
      cases e with
      | dir => exact ih fs q h
      | file c => simpa using h

theorem upload_file_isSome (fs : FS) (p : List String) (file : Option Nat)
    (isd : Bool) (q : List String) (h : (lookupE fs q).isSome = true) :
    (lookupE (upload_file fs p file isd).2 q).isSome = true := by
  have hch := mkdirChain_isSome (ancestors p) fs q h
  unfold upload_file upload_inner
  rcases hmc : mkdirChain fs (ancestors p) with ⟨fs1, b⟩
  rw [hmc] at hch
  simp only [] at hch
  cases b with
  | false => simpa using hch
  | true =>
    cases isd with
    | true =>
      cases hp : lookupE fs1 p with
      | none => simpa [hp] using lookupE_insertE_isSome fs1 p Entry.dir q hch
      | some e => cases e <;> simpa [hp] using hch
    | false =>
      cases file with
      | none => simpa using hch
      | some content =>
        cases hp : lookupE fs1 p with
        | none =>
          simpa [hp] using lookupE_insertE_isSome fs1 p (Entry.file content) q hch
        | some e =>
          cases e with
          | dir => simpa [hp] using hch
          | file c =>
            simpa [hp] using lookupE_insertE_isSome fs1 p (Entry.file content) q hch

theorem applyOp_isSome (fs : FS) (op : Op) (q : List String)
    (h : (lookupE fs q).isSome = true) :
    (lookupE (applyOp fs op) q).isSome = true := by
  cases op with
  | mkdirOp p => exact upload_file_isSome fs p none true q h
  | uploadOp p c => exact upload_file_isSome fs p (some c) false q h

theorem runOps_isSome (ops : List Op) :
    ∀ (fs : FS) (q : List String), (lookupE fs q).isSome = true →
      (lookupE (runOps fs ops) q).isSome = true := by
  induction ops with
  | nil => intro fs q h; simpa [runOps] using h
  | cons op rest ih =>
    intro fs q h
    have h2 := applyOp_isSome fs op q h
    simpa [runOps, List.foldl_cons] using ih (applyOp fs op) q h2

/-- C5: reconciliation never deletes — every remote path present before a
`force_sync` pass is still present after all of the requests the pass
issues (per-segment directory creations and file uploads) have been
applied to the server state, whatever the local and remote inventories
and whatever the server answered the folder-creation posts. -/
theorem c5_reconcile_never_deletes (resp : List String → Bool) (sm : SMap)
    (lm : LMap) (contentOf : List String → Nat) (fs : FS) (q : List String)
    (h : (lookupE fs q).isSome = true) :
    (lookupE (runOps fs (reconcileOps resp sm lm contentOf)) q).isSome = true :=
  runOps_isSome (reconcileOps resp sm lm contentOf) fs q h

/-- Witness for C5: a pre-existing remote file survives a reconciliation
that uploads a fresh local file. -/
theorem c5_reconcile_never_deletes_witness :
    (lookupE (runOps [([ "x" ], Entry.file 1)]
        (reconcileOps (fun _ => true) [] [([ "a" ], LItem.mk false 5)]
          (fun _ => 0))) [ "x" ]).isSome = true :=
  c5_reconcile_never_deletes (fun _ => true) [] [([ "a" ], LItem.mk false 5)]
    (fun _ => 0) [([ "x" ], Entry.file 1)] [ "x" ] (by decide)

/-! Helper lemmas about the upload retry loop. -/

theorem uploadGo_length_le (att : Nat → Att) :
    ∀ (fuel i : Nat), (uploadGo att i fuel).length ≤ fuel := by
  intro fuel
  induction fuel with
  | zero => intro i; simp [uploadGo]
  | succ n ih =>
    intro i
    unfold uploadGo
    cases h : att i with
    | ok => simp
    | otherExc => simp
    | rejected c =>
      have h2 := ih (i + 1)
      simp only [List.length_cons]
      omega
    | transientExc =>
      have h2 := ih (i + 1)
      simp only [List.length_cons]
      omega

theorem uploadGo_ok_stops (att : Nat → Att) :
    ∀ (fuel i j : Nat), (uploadGo att i fuel)[j]? = some Att.ok →
      (uploadGo att i fuel).length = j + 1 := by
  intro fuel
  induction fuel with
  | zero => intro i j h; simp [uploadGo] at h
  | succ n ih =>
    intro i j h
    unfold uploadGo at h ⊢
    cases hi : att i with
    | ok =>
      cases j with
      | zero => simp
      | succ k => simp [hi] at h
    | otherExc =>
      cases j with
      | zero => simp [hi] at h
      | succ k => simp [hi] at h
    | rejected c =>
      cases j with
      | zero => simp [hi] at h
      | succ k =>
        simp only [hi, List.getElem?_cons_succ] at h
        simp only [List.length_cons]
        rw [ih (i + 1) k h]
    | transientExc =>
      cases j with
      | zero => simp [hi] at h
      | succ k =>
        simp only [hi, List.getElem?_cons_succ] at h
        simp only [List.length_cons]
        rw [ih (i + 1) k h]

theorem uploadGo_ne_nil (att : Nat → Att) (i fuel : Nat) (h : 0 < fuel) :
    uploadGo att i fuel ≠ [] := by
  cases fuel with
  | zero => omega
  | succ n =>
    unfold uploadGo
    cases att i <;> simp

theorem uploadGo_rejected_retries (att : Nat → Att) :
    ∀ (fuel i j c : Nat),
      (uploadGo att i fuel)[j]? = some (Att.rejected c) → j + 1 < fuel →
      j + 2 ≤ (uploadGo att i fuel).length := by
  intro fuel
  induction fuel with
  | zero => intro i j c h hf; omega
  | succ n ih =>
    intro i j c h hf
    unfold uploadGo at h ⊢
    cases hi : att i with
    | ok =>
      cases j with
      | zero => simp [hi] at h
      | succ k => simp [hi] at h
    | otherExc =>
      cases j with
      | zero => simp [hi] at h
      | succ k => simp [hi] at h
    | rejected c0 =>
      cases j with
      | zero =>
        have h1 : uploadGo att (i + 1) n ≠ [] := uploadGo_ne_nil att (i + 1) n (by omega)
        have h2 : 0 < (uploadGo att (i + 1) n).length := List.length_pos.mpr h1
        simp only [List.length_cons]
        omega
      | succ k =>
        simp only [hi, List.getElem?_cons_succ] at h
        have h2 := ih (i + 1) k c h (by omega)
        simp only [List.length_cons]
        omega
    | transientExc =>
      cases j with
      | zero => simp [hi] at h
      | succ k =>
        simp only [hi, List.getElem?_cons_succ] at h
        have h2 := ih (i + 1) k c h (by omega)
        simp only [List.length_cons]
        omega

/-- C7 counterexample: a non-2xx upload response is not final — with the
server answering 500 on every attempt, a second and third upload attempt
are still made after the first rejected one. -/
theorem c7_rejection_no_retry_cex :
    (upload_attempts (fun _ => Att.rejected 500))[0]? = some (Att.rejected 500)
      ∧ (upload_attempts (fun _ => Att.rejected 500)).length = 3 := by
  decide

/-- C7 amended: a non-2xx upload response is retried, not dropped — the
retry loop makes at most 3 attempts in total, a rejected attempt before
the bound is always followed by a further attempt, and only a 200
response stops the loop early with no further attempt (as does a
non-transient exception); the action is dropped only once the attempt
bound is exhausted. -/
theorem c7_rejection_retry_bound (att : Nat → Att) :
    (upload_attempts att).length ≤ 3
      ∧ (∀ j c, (upload_attempts att)[j]? = some (Att.rejected c) → j + 1 < 3 →
          j + 2 ≤ (upload_attempts att).length)
      ∧ (∀ j, (upload_attempts att)[j]? = some Att.ok →
          (upload_attempts att).length = j + 1) :=
  ⟨uploadGo_length_le att 3 0,
   fun j c h hj => uploadGo_rejected_retries att 3 0 j c h hj,
   fun j h => uploadGo_ok_stops att 3 0 j h⟩

/-- Witness for the amended C7: three straight 500 responses give a trace
of exactly three attempts, within the bound. -/
theorem c7_rejection_retry_bound_witness :
    (upload_attempts (fun _ => Att.rejected 500)).length ≤ 3 :=
  (c7_rejection_retry_bound (fun _ => Att.rejected 500)).1

/-! Helper lemmas for the directory-creation endpoint. -/

theorem lookupE_mem (fs : FS) (p : List String) (e : Entry)
    (h : lookupE fs p = some e) : (p, e) ∈ fs := by
  induction fs with
  | nil => simp [lookupE] at h
  | cons x rest ih =>
    obtain ⟨q, y⟩ := x
    by_cases hq : q = p
    · subst hq
      have hy : y = e := by simpa [lookupE] using h
      rw [hy]
      exact List.mem_cons_self _ _
    · simp only [lookupE, if_neg hq] at h
      exact List.mem_cons_of_mem _ (ih h)

theorem mkdirChain_all_dirs : ∀ (l : List (List String)) (fs : FS),
    (∀ a ∈ l, lookupE fs a = some Entry.dir) → mkdirChain fs l = (fs, true) := by
  intro l
  induction l with
  | nil => intro fs h; rfl
  | cons a rest ih =>
    intro fs h
    unfold mkdirChain
    rw [h a (by simp)]
    exact ih fs (fun b hb => h b (by simp [hb]))

/-- C8: createDirectory is idempotent — when the path already exists as a
remote directory (in a well-formed store, whose ancestors therefore exist
as directories), the upload endpoint with is_directory set returns
success and leaves the storage exactly unchanged. -/
theorem c8_mkdir_idempotent (fs : FS) (p : List String)
    (hwf : wellFormedFS fs) (hdir : lookupE fs p = some Entry.dir) :
    upload_file fs p none true = (Resp.ok, fs) := by
  have hanc : ∀ a ∈ ancestors p, lookupE fs a = some Entry.dir :=
    hwf (p, Entry.dir) (lookupE_mem fs p Entry.dir hdir)
  unfold upload_file upload_inner
  rw [mkdirChain_all_dirs (ancestors p) fs hanc]
  simp [hdir]

/-- Witness for C8 on a two-level store whose directory already exists. -/
theorem c8_mkdir_idempotent_witness :
    upload_file [([ "a" ], Entry.dir), ([ "a", "b" ], Entry.dir)] [ "a", "b" ]
        none true
      = (Resp.ok, [([ "a" ], Entry.dir), ([ "a", "b" ], Entry.dir)]) :=
  c8_mkdir_idempotent [([ "a" ], Entry.dir), ([ "a", "b" ], Entry.dir)]
    [ "a", "b" ] (by unfold wellFormedFS; decide) (by decide)

/-! Helper lemmas for the no-payload upload path. -/

theorem mem_ancestors_ne (p a : List String) (h : a ∈ ancestors p) : a ≠ p := by
  have h1 := mem_cumPathsAux_le [] p.dropLast a h
  intro he
  subst he
  cases a with
  | nil => simp [ancestors, cumPathsAux] at h
  | cons x xs =>
    rw [List.length_dropLast] at h1
    simp only [List.length_nil, List.length_cons] at h1
    omega

theorem mkdirChain_no_conflict :
    ∀ (l : List (List String)) (fs : FS),
      (∀ a ∈ l, lookupE fs a = none ∨ lookupE fs a = some Entry.dir) →
      (mkdirChain fs l).2 = true
        ∧ (∀ a ∈ l, lookupE (mkdirChain fs l).1 a = some Entry.dir)
        ∧ (∀ q : List String, q ∉ l → lookupE (mkdirChain fs l).1 q = lookupE fs q) := by
  intro l
  induction l with
  | nil => intro fs h; exact ⟨rfl, by simp, fun q _ => rfl⟩
  | cons a rest ih =>
    intro fs h
    rcases h a (by simp) with ha | ha
    · have hrest : ∀ b ∈ rest, lookupE (insertE fs a Entry.dir) b = none
          ∨ lookupE (insertE fs a Entry.dir) b = some Entry.dir := by
        intro b hb
        by_cases hba : b = a
        · subst hba
          exact Or.inr (lookupE_insertE_self fs b Entry.dir)
        · rw [lookupE_insertE_ne fs a b Entry.dir hba]
          exact h b (by simp [hb])
      obtain ⟨h1, h2, h3⟩ := ih (insertE fs a Entry.dir) hrest
      have heq : mkdirChain fs (a :: rest)
          = mkdirChain (insertE fs a Entry.dir) rest := by
        show (match lookupE fs a with
            | some Entry.dir => mkdirChain fs rest
            | some (Entry.file _) => (fs, false)
            | none => mkdirChain (insertE fs a Entry.dir) rest)
          = mkdirChain (insertE fs a Entry.dir) rest
        simp only [ha]
      refine ⟨by rw [heq]; exact h1, ?_, ?_⟩
      · intro b hb
        rw [heq]
        rcases List.mem_cons.mp hb with hba | hbr
        · subst hba
          by_cases hbrest : b ∈ rest
          · exact h2 b hbrest
          · rw [h3 b hbrest]
            exact lookupE_insertE_self fs b Entry.dir
        · exact h2 b hbr
      · intro q hq
        rw [heq, h3 q (fun hc => hq (by simp [hc]))]
        exact lookupE_insertE_ne fs a q Entry.dir (fun hc => hq (by simp [hc]))
    · have heq : mkdirChain fs (a :: rest) = mkdirChain fs rest := by
        show (match lookupE fs a with
            | some Entry.dir => mkdirChain fs rest
            | some (Entry.file _) => (fs, false)
            | none => mkdirChain (insertE fs a Entry.dir) rest)
          = mkdirChain fs rest
        simp only [ha]
      obtain ⟨h1, h2, h3⟩ := ih fs (fun b hb => h b (by simp [hb]))
      refine ⟨by rw [heq]; exact h1, ?_, ?_⟩
      · intro b hb
        rw [heq]
        rcases List.mem_cons.mp hb with hba | hbr
        · subst hba
          by_cases hbrest : b ∈ rest
          · exact h2 b hbrest
          · rw [h3 b hbrest]
            exact ha
        · exact h2 b hbr
      · intro q hq
        rw [heq]
        exact h3 q (fun hc => hq (by simp [hc]))

/-- C9: an upload request with is_directory false and no file payload is
rejected with an internal 400 that the blanket exception handler re-wraps
as HTTP 500; the target path itself is left untouched (no file written),
but the missing parent directories have already been created before the
rejection, so when a proper ancestor was absent the failed operation does
not leave the storage unchanged. (Stated for requests whose ancestor
chain meets no file in the way; a conflicting ancestor also yields 500.) -/
theorem c9_upload_no_file_500 (fs : FS) (p : List String)
    (hc : ∀ a ∈ ancestors p, lookupE fs a = none ∨ lookupE fs a = some Entry.dir) :
    (upload_file fs p none false).1 = Resp.err 500
      ∧ upload_inner fs p none false
          = Except.error (ExcKind.http 400, (upload_file fs p none false).2)
      ∧ lookupE (upload_file fs p none false).2 p = lookupE fs p
      ∧ (∀ a ∈ ancestors p,
          lookupE (upload_file fs p none false).2 a = some Entry.dir)
      ∧ ((∃ a ∈ ancestors p, lookupE fs a = none)
          → (upload_file fs p none false).2 ≠ fs) := by
  obtain ⟨h1, h2, h3⟩ := mkdirChain_no_conflict (ancestors p) fs hc
  rcases hmc : mkdirChain fs (ancestors p) with ⟨fs1, b⟩
  rw [hmc] at h1 h2 h3
  simp only [] at h1 h2 h3
  subst h1
  have hui : upload_inner fs p none false = Except.error (ExcKind.http 400, fs1) := by
    unfold upload_inner
    simp [hmc]
  have huf : upload_file fs p none false = (Resp.err 500, fs1) := by
    unfold upload_file
    simp [hui]
  refine ⟨by rw [huf], by rw [hui, huf], ?_, ?_, ?_⟩
  · rw [huf]
    exact h3 p (fun hmem => mem_ancestors_ne p p hmem rfl)
  · rw [huf]
    exact h2
  · rw [huf]
    rintro ⟨a, ha, hnone⟩ he
    have he2 : fs1 = fs := he
    have hda := h2 a ha
    rw [he2, hnone] at hda
    simp at hda

/-- Witness for C9: uploading with no payload to a path whose parent is
missing answers 500, writes no file, and has created the parent. -/
theorem c9_upload_no_file_500_witness :
    (upload_file [] [ "a", "b.txt" ] none false).1 = Resp.err 500 :=
  (c9_upload_no_file_500 [] [ "a", "b.txt" ] (by decide)).1

/-- C10: a filesystem event whose path is not under the watched sync
folder is silently ignored — `relative_to` fails, the handler returns,
and no remote request is issued. -/
theorem c10_outside_root_ignored (resp : List String → Bool) (sync : List String)
    (L : LFS) (c : Change) (p : List String) (h : relOf sync p = none) :
    handle_event_reqs resp sync L c p = [] := by
  unfold handle_event_reqs
  rw [h]

/-- Witness for C10 at a path outside the sync folder. -/
theorem c10_outside_root_ignored_witness :
    handle_event_reqs (fun _ => true) [ "h", "s" ] [] Change.added [ "x" ] = [] :=
  c10_outside_root_ignored (fun _ => true) [ "h", "s" ] [] Change.added [ "x" ]
    (by decide)

end MI777
